/-
Verification of the Mneme decision simulator (Backend/decision_simulator.py)
against its natural-language specification.

The Python module is shallowly embedded over ℚ:
* Python floats become rationals (the algorithms use only field operations);
* Python dicts become insertion-ordered association lists (`Dict`), with
  `dset` mirroring `d[k] = v` (update in place, append when fresh) and
  `dget?` mirroring `d[k]` / `d.get(k)` lookup;
* the numpy RNG becomes an abstract stream `Rng : ℕ → ℚ → ℚ → ℚ`, where
  `rng ix mean std` is the value of the `ix`-th normal draw requested with
  the given mean and standard deviation;
* raised Python exceptions become `Except PyError`;
* `np.std` and the spec's population standard deviation are irrational-valued
  (a square root) and are not modelled; no stated property mentions them.
-/
import Mathlib

namespace Mneme

/-- Association list with Python-dict semantics (insertion order preserved). -/
abbrev Dict (κ α : Type) := List (κ × α)

/-- `d.get(k)`: first entry with the given key. -/
def dget? {κ α : Type} [DecidableEq κ] (d : Dict κ α) (k : κ) : Option α :=
  (d.find? (fun p => decide (p.1 = k))).map (fun p => p.2)

/-- `k in d`. -/
def dmem {κ α : Type} [DecidableEq κ] (d : Dict κ α) (k : κ) : Bool :=
  (dget? d k).isSome

/-- `d.get(k, dflt)`. -/
def dgetD {κ α : Type} [DecidableEq κ] (d : Dict κ α) (k : κ) (dflt : α) : α :=
  (dget? d k).getD dflt

/-- `d[k] = v`: replace the entry in place when the key exists, else append. -/
def dset {κ α : Type} [DecidableEq κ] (d : Dict κ α) (k : κ) (v : α) : Dict κ α :=
  if dmem d k then d.map (fun p => if p.1 = k then (k, v) else p) else d ++ [(k, v)]

/-- Build a dict from key/value pairs in order (a dict comprehension:
duplicate keys keep the first position but the last value). -/
def dictOfList {κ α : Type} [DecidableEq κ] (pairs : List (κ × α)) : Dict κ α :=
  pairs.foldl (fun d p => dset d p.1 p.2) []

/-- config.py -/
def DEFAULT_SIMULATION_RUNS : Int := 1000

/-- config.py -/
def MAX_SIMULATION_RUNS : Int := 10000

structure Choice where
  id : Int
  name : String
  description : Option String := none
deriving DecidableEq

structure Factor where
  id : Int
  name : String
  weight : ℚ := 1
  description : Option String := none
deriving DecidableEq

structure Score where
  choice_id : Int
  factor_id : Int
  score : ℚ
  uncertainty : ℚ := 0
deriving DecidableEq

/-- Unreachable dict-lookup default (lookups of keys the code itself put
into the dict). -/
def defaultChoice : Choice := { id := 0, name := "" }

structure DecisionSimulator where
  choices : Dict Int Choice
  factors : Dict Int Factor
  scores : Dict Int (Dict Int Score)
  normalized_weights : Dict Int ℚ
deriving DecidableEq

/-- `DecisionSimulator._organize_scores`: choice_id -> factor_id -> Score. -/
def organizeScores (scores : List Score) : Dict Int (Dict Int Score) :=
  scores.foldl
    (fun organized s =>
      dset organized s.choice_id (dset (dgetD organized s.choice_id []) s.factor_id s))
    []

/-- The weight-normalizing dict comprehension in `DecisionSimulator.__init__`. -/
def normalizeWeights (factors : List Factor) : Dict Int ℚ :=
  let total_weight : ℚ := (factors.map (fun f => f.weight)).sum
  dictOfList (factors.map (fun f =>
    (f.id, if total_weight > 0 then f.weight / total_weight else 1 / (factors.length : ℚ))))

/-- `DecisionSimulator.__init__`. -/
def DecisionSimulator.init (choices : List Choice) (factors : List Factor)
    (scores : List Score) : DecisionSimulator :=
  { choices := dictOfList (choices.map (fun c => (c.id, c))),
    factors := dictOfList (factors.map (fun f => (f.id, f))),
    scores := organizeScores scores,
    normalized_weights := normalizeWeights factors }

/-- `DecisionSimulator.calculate_weighted_score`. -/
def DecisionSimulator.calculate_weighted_score (sim : DecisionSimulator)
    (choice_id : Int) : ℚ :=
  match dget? sim.scores choice_id with
  | none => 0
  | some inner =>
    sim.normalized_weights.foldl
      (fun total fw =>
        match dget? inner fw.1 with
        | some s => total + s.score * fw.2
        | none => total)
      0

/-- Abstract RNG stream: `rng ix mean std` is the result of the `ix`-th call
to `rng.normal(mean, std)`. -/
abbrev Rng : Type := ℕ → ℚ → ℚ → ℚ

/-- The per-score sampling step inside `DecisionSimulator.simulate_once`
(lines 87–93): draw when `uncertainty > 0` and clamp into [0, 10], otherwise
use the raw score; returns the sample and the next draw index. -/
def sample_score (s : Score) (rng : Rng) (ix : ℕ) : ℚ × ℕ :=
  if s.uncertainty > 0 then
    (max 0 (min 10 (rng ix s.score s.uncertainty)), ix + 1)
  else
    (s.score, ix)

/-- `DecisionSimulator.simulate_once`. -/
def DecisionSimulator.simulate_once (sim : DecisionSimulator) (choice_id : Int)
    (rng : Rng) (ix : ℕ) : ℚ × ℕ :=
  match dget? sim.scores choice_id with
  | none => (0, ix)
  | some inner =>
    sim.normalized_weights.foldl
      (fun acc fw =>
        match dget? inner fw.1 with
        | some s =>
          let r := sample_score s rng acc.2
          (acc.1 + r.1 * fw.2, r.2)
        | none => acc)
      (0, ix)

/-- Raised Python exceptions. -/
inductive PyError where
  | keyError : Int → PyError
  | valueError : PyError
  | zeroDivisionError : PyError
deriving DecidableEq

/-- Mutable state of the `run_simulation` loop. -/
structure SimState where
  all_results : Dict Int (List ℚ)
  win_counts : Dict Int Int
  ix : ℕ
deriving DecidableEq

/-- Python `max(d, key=d.get)` keeps the current best and replaces it only on
a strictly greater value, so the first key attaining the maximum wins. -/
def pyMaxAux {κ : Type} (best : κ × ℚ) : List (κ × ℚ) → κ × ℚ
  | [] => best
  | p :: rest => pyMaxAux (if p.2 > best.2 then p else best) rest

/-- `max(d, key=d.get)` over a dict; `none` exactly when the dict is empty. -/
def argmaxFirst {κ : Type} : Dict κ ℚ → Option κ
  | [] => none
  | p :: rest => some (pyMaxAux p rest).1

/-- The per-round pass over all choices: builds `round_scores` and appends to
`all_results`, threading the draw index. -/
def roundFoldAux (sim : DecisionSimulator) (rng : Rng)
    (l : List (Int × Choice)) (acc : Dict Int ℚ × Dict Int (List ℚ) × ℕ) :
    Dict Int ℚ × Dict Int (List ℚ) × ℕ :=
  l.foldl
    (fun acc p =>
      let r := sim.simulate_once p.1 rng acc.2.2
      (dset acc.1 p.1 r.1, dset acc.2.1 p.1 (dgetD acc.2.1 p.1 [] ++ [r.1]), r.2))
    acc

/-- One iteration of the `for _ in range(num_runs)` loop. -/
def simulationRound (sim : DecisionSimulator) (rng : Rng) (st : SimState) : SimState :=
  let t := roundFoldAux sim rng sim.choices ([], st.all_results, st.ix)
  match argmaxFirst t.1 with
  | some winner =>
    { all_results := t.2.1,
      win_counts := dset st.win_counts winner (dgetD st.win_counts winner 0 + 1),
      ix := t.2.2 }
  | none =>
    { all_results := t.2.1, win_counts := st.win_counts, ix := t.2.2 }

/-- Run `n` simulation rounds. -/
def simRounds (sim : DecisionSimulator) (rng : Rng) : ℕ → SimState → SimState
  | 0, st => st
  | n + 1, st => simRounds sim rng n (simulationRound sim rng st)

/-- Storage initialized at the top of `run_simulation`. -/
def initState (sim : DecisionSimulator) : SimState :=
  { all_results := sim.choices.map (fun p => (p.1, [])),
    win_counts := sim.choices.map (fun p => (p.1, 0)),
    ix := 0 }

/-- Ascending insertion used by `sortAsc`. -/
def insertAsc (x : ℚ) : List ℚ → List ℚ
  | [] => [x]
  | y :: ys => if x ≤ y then x :: y :: ys else y :: insertAsc x ys

/-- Ascending value sort (`np.sort`, used by `np.percentile`). -/
def sortAsc (l : List ℚ) : List ℚ := l.foldr insertAsc []

/-- `np.percentile` with the default linear interpolation, on an already
sorted non-empty list. -/
def npPercentile (q : ℚ) (sorted : List ℚ) : ℚ :=
  let h : ℚ := (q / 100) * ((sorted.length : ℚ) - 1)
  let l : ℕ := Int.toNat ⌊h⌋
  let lo := sorted.getD l 0
  let hi := sorted.getD (l + 1) lo
  lo + (h - (l : ℚ)) * (hi - lo)

structure ChoiceStats where
  choice_id : Int
  name : String
  deterministic_score : ℚ
  mean : ℚ
  min : ℚ
  max : ℚ
  percentile_5 : ℚ
  percentile_25 : ℚ
  percentile_50 : ℚ
  percentile_75 : ℚ
  percentile_95 : ℚ
  win_rate : ℚ
deriving DecidableEq

/-- One entry of the `choice_results` dict. `np.mean`/`np.std` of an empty
series only warn, but `np.min` raises `ValueError`, so building the entry for
an empty sample series fails. -/
def choiceStats (sim : DecisionSimulator) (num_runs : Int) (win : Dict Int Int)
    (cid : Int) (results : List ℚ) : Except PyError ChoiceStats :=
  match results with
  | [] => .error .valueError
  | r :: rs =>
    let s := sortAsc results
    .ok { choice_id := cid,
          name := (dgetD sim.choices cid defaultChoice).name,
          deterministic_score := sim.calculate_weighted_score cid,
          mean := results.sum / (results.length : ℚ),
          min := rs.foldl min r,
          max := rs.foldl max r,
          percentile_5 := npPercentile 5 s,
          percentile_25 := npPercentile 25 s,
          percentile_50 := npPercentile 50 s,
          percentile_75 := npPercentile 75 s,
          percentile_95 := npPercentile 95 s,
          win_rate := ((dgetD win cid 0 : Int) : ℚ) / (num_runs : ℚ) }

/-- The `choice_results` construction loop. -/
def buildStats (sim : DecisionSimulator) (num_runs : Int) (win : Dict Int Int) :
    Dict Int (List ℚ) → Except PyError (Dict Int ChoiceStats)
  | [] => .ok []
  | (cid, results) :: rest =>
    match choiceStats sim num_runs win cid results with
    | .error e => .error e
    | .ok st =>
      match buildStats sim num_runs win rest with
      | .error e => .error e
      | .ok d => .ok ((cid, st) :: d)

/-- Stable descending insertion by `mean` (earlier elements stay in front of
equal-`mean` elements), used by `sortByMeanDesc`. -/
def insertDesc (x : ChoiceStats) : List ChoiceStats → List ChoiceStats
  | [] => [x]
  | y :: ys => if y.mean > x.mean then y :: insertDesc x ys else x :: y :: ys

/-- Python `sorted(..., key=lambda x: x["mean"], reverse=True)`: a stable
sort, descending by `mean`. -/
def sortByMeanDesc (l : List ChoiceStats) : List ChoiceStats := l.foldr insertDesc []

structure SimulationReport where
  num_simulations : Int
  choice_results : Dict Int ChoiceStats
  rankings : List ChoiceStats
  win_rates : Dict String ℚ
deriving DecidableEq

/-- `DecisionSimulator.run_simulation`. -/
def DecisionSimulator.run_simulation (sim : DecisionSimulator) (num_runs : Int)
    (rng : Rng) : Except PyError SimulationReport :=
  let num_runs := min num_runs MAX_SIMULATION_RUNS
  let final := simRounds sim rng num_runs.toNat (initState sim)
  match buildStats sim num_runs final.win_counts final.all_results with
  | .error e => .error e
  | .ok choice_results =>
    .ok { num_simulations := num_runs,
          choice_results := choice_results,
          rankings := sortByMeanDesc (choice_results.map (fun p => p.2)),
          win_rates := dictOfList (final.win_counts.map (fun p =>
            ((dgetD sim.choices p.1 defaultChoice).name, (p.2 : ℚ) / (num_runs : ℚ)))) }

/-- `np.linspace(lo, hi, steps)` over ℚ (exact endpoints; `[lo]` when
`steps = 1`, since the formula degenerates to `lo + 0`). -/
def linspace (lo hi : ℚ) (steps : ℕ) : List ℚ :=
  (List.range steps).map (fun (i : ℕ) => lo + (hi - lo) * (i : ℚ) / ((steps : ℚ) - 1))

/-- The `{k: v/total for ...}` renormalization; `ZeroDivisionError` when the
weights sum to 0. -/
def renormalize (w : Dict Int ℚ) : Except PyError (Dict Int ℚ) :=
  let total := (w.map (fun p => p.2)).sum
  if total = 0 then .error .zeroDivisionError
  else .ok (w.map (fun p => (p.1, p.2 / total)))

/-- The per-multiplier deterministic score dict keyed by choice name. -/
def scoresDict (sim : DecisionSimulator) : Dict String ℚ :=
  dictOfList (sim.choices.map (fun p =>
    ((dgetD sim.choices p.1 defaultChoice).name, sim.calculate_weighted_score p.1)))

structure SensitivityEntry where
  multiplier : ℚ
  scores : Dict String ℚ
  winner : String
deriving DecidableEq

structure SensitivityReport where
  factor_id : Int
  factor_name : String
  analysis : List SensitivityEntry
deriving DecidableEq

/-- One iteration of the `sensitivity_analysis` loop: read the current entry
(`KeyError` when absent), overwrite it with `original_weight * multiplier`,
renormalize the whole shared table, score every choice against the
renormalized table, and restore only the perturbed factor's entry. -/
def sensStep (sim : DecisionSimulator) (factor_id : Int) (ow m : ℚ)
    (w : Dict Int ℚ) : Except PyError (SensitivityEntry × Dict Int ℚ) :=
  match dget? w factor_id with
  | none => .error (.keyError factor_id)
  | some old_weight =>
    match renormalize (dset w factor_id (ow * m)) with
    | .error e => .error e
    | .ok temp =>
      let scores := scoresDict { sim with normalized_weights := temp }
      match argmaxFirst scores with
      | none => .error .valueError
      | some winner =>
        .ok ({ multiplier := m, scores := scores, winner := winner },
             dset temp factor_id old_weight)

/-- The `for multiplier in np.linspace(...)` loop, threading the mutated
shared weight table. -/
def sensLoop (sim : DecisionSimulator) (factor_id : Int) (ow : ℚ) :
    List ℚ → Dict Int ℚ → Except PyError (List SensitivityEntry × Dict Int ℚ)
  | [], w => .ok ([], w)
  | m :: ms, w =>
    match sensStep sim factor_id ow m w with
    | .error e => .error e
    | .ok (entry, w') =>
      match sensLoop sim factor_id ow ms w' with
      | .error e => .error e
      | .ok (entries, wfin) => .ok (entry :: entries, wfin)

/-- `DecisionSimulator.sensitivity_analysis`; the returned simulator carries
the weight table as the loop left it (the Python method mutates `self`). -/
def DecisionSimulator.sensitivity_analysis (sim : DecisionSimulator)
    (factor_id : Int) (weight_range : ℚ × ℚ) (steps : ℕ) :
    Except PyError (SensitivityReport × DecisionSimulator) :=
  let ow := dgetD sim.normalized_weights factor_id 1
  match sensLoop sim factor_id ow (linspace weight_range.1 weight_range.2 steps)
      sim.normalized_weights with
  | .error e => .error e
  | .ok (entries, wfin) =>
    match dget? sim.factors factor_id with
    | none => .error (.keyError factor_id)
    | some f =>
      .ok ({ factor_id := factor_id, factor_name := f.name, analysis := entries },
           { sim with normalized_weights := wfin })

section DictLemmas

variable {κ α : Type} [DecidableEq κ]

theorem dget?_nil (k : κ) : dget? ([] : Dict κ α) k = none := rfl

theorem dget?_cons (p : κ × α) (d : Dict κ α) (k : κ) :
    dget? (p :: d) k = if p.1 = k then some p.2 else dget? d k := by
  by_cases h : p.1 = k <;> simp [dget?, List.find?, h]

theorem dmem_cons (p : κ × α) (d : Dict κ α) (k : κ) :
    dmem (p :: d) k = if p.1 = k then true else dmem d k := by
  by_cases h : p.1 = k <;> simp [dmem, dget?_cons, h]

theorem dmem_iff_mem_keys (d : Dict κ α) (k : κ) :
    dmem d k = true ↔ k ∈ d.map Prod.fst := by
  induction d with
  | nil => simp [dmem, dget?]
  | cons p d ih =>
    by_cases h : p.1 = k <;> simp [dmem_cons, h, ih]
    exact fun hk => (h hk.symm).elim

theorem dget?_eq_none_of_not_mem {d : Dict κ α} {k : κ}
    (h : k ∉ d.map Prod.fst) : dget? d k = none := by
  cases o : dget? d k with
  | none => rfl
  | some v =>
    have hb : dmem d k = true := by simp [dmem, o]
    exact absurd ((dmem_iff_mem_keys d k).mp hb) h

theorem dget?_map_update_of_dmem {d : Dict κ α} {k : κ} (v : α)
    (h : dmem d k = true) :
    dget? (d.map (fun p => if p.1 = k then (k, v) else p)) k = some v := by
  induction d with
  | nil => simp [dmem, dget?] at h
  | cons p d ih =>
    by_cases hp : p.1 = k
    · simp [hp, dget?_cons]
    · rw [dmem_cons, if_neg hp] at h
      simpa [hp, dget?_cons] using ih h

theorem dget?_dset_self (d : Dict κ α) (k : κ) (v : α) :
    dget? (dset d k v) k = some v := by
  by_cases h : dmem d k = true
  · rw [dset, if_pos h]
    exact dget?_map_update_of_dmem v h
  · rw [dset, if_neg h]
    induction d with
    | nil => simp [dget?_cons]
    | cons p d ih =>
      rw [dmem_cons] at h
      by_cases hp : p.1 = k
      · simp [hp] at h
      · rw [if_neg hp] at h
        simpa [dget?_cons, hp] using ih h

theorem dget?_map_update_ne (d : Dict κ α) (k k' : κ) (v : α) (h : k' ≠ k) :
    dget? (d.map (fun p => if p.1 = k then (k, v) else p)) k' = dget? d k' := by
  induction d with
  | nil => simp
  | cons p d ih =>
    by_cases hp : p.1 = k
    · have hk : k ≠ k' := fun hk => h hk.symm
      have hp' : p.1 ≠ k' := by rw [hp]; exact hk
      simp [hp, dget?_cons, hk, hp', ih]
    · simp only [List.map_cons, if_neg hp, dget?_cons]
      by_cases hp' : p.1 = k' <;> simp [hp', ih]

theorem dget?_append_single_ne (d : Dict κ α) (k k' : κ) (v : α) (h : k' ≠ k) :
    dget? (d ++ [(k, v)]) k' = dget? d k' := by
  induction d with
  | nil =>
    have hk : ¬k = k' := fun hk => h hk.symm
    simp [dget?_cons, dget?, hk]
  | cons p d ih =>
    simp only [List.cons_append, dget?_cons]
    by_cases hp' : p.1 = k' <;> simp [hp', ih]

theorem dget?_dset_ne (d : Dict κ α) (k k' : κ) (v : α) (h : k' ≠ k) :
    dget? (dset d k v) k' = dget? d k' := by
  by_cases hm : dmem d k = true
  · rw [dset, if_pos hm]
    exact dget?_map_update_ne d k k' v h
  · rw [dset, if_neg hm]
    exact dget?_append_single_ne d k k' v h

theorem dset_ne_nil (d : Dict κ α) (k : κ) (v : α) : dset d k v ≠ [] := by
  by_cases hm : dmem d k = true
  · rw [dset, if_pos hm]
    cases d with
    | nil => simp [dmem, dget?] at hm
    | cons p d => simp
  · rw [dset, if_neg hm]
    simp

theorem keys_dset_of_dmem {d : Dict κ α} {k : κ} (v : α) (h : dmem d k = true) :
    (dset d k v).map Prod.fst = d.map Prod.fst := by
  rw [dset, if_pos h, List.map_map]
  apply List.map_congr_left
  intro p _
  by_cases hp : p.1 = k <;> simp [hp, Function.comp]

theorem dmem_dset_imp {d : Dict κ α} {k k' : κ} {v : α}
    (h : dmem (dset d k v) k' = true) : dmem d k' = true ∨ k' = k := by
  by_cases hk : k' = k
  · exact Or.inr hk
  · left
    rwa [dmem, dget?_dset_ne d k k' v hk] at h

theorem dget?_of_mem_nodup {d : Dict κ α} {k : κ} {v : α}
    (hnd : (d.map Prod.fst).Nodup) (hm : (k, v) ∈ d) : dget? d k = some v := by
  induction d with
  | nil => simp at hm
  | cons p d ih =>
    simp only [List.map_cons, List.nodup_cons] at hnd
    rcases List.mem_cons.mp hm with h | h
    · subst h
      simp [dget?_cons]
    · have hp : p.1 ≠ k := by
        intro hk
        exact hnd.1 (hk ▸ (List.mem_map.mpr ⟨(k, v), h, rfl⟩))
      simp [dget?_cons, hp, ih hnd.2 h]

theorem dset_of_fresh {d : Dict κ α} {k : κ} (v : α)
    (h : k ∉ d.map Prod.fst) : dset d k v = d ++ [(k, v)] := by
  have : dmem d k = false := by
    cases hb : dmem d k with
    | true => exact absurd ((dmem_iff_mem_keys d k).mp hb) h
    | false => rfl
  simp [dset, this]

theorem dictOfList_aux_of_nodup :
    ∀ (pairs : List (κ × α)) (acc : Dict κ α),
      (pairs.map Prod.fst).Nodup →
      (∀ k, k ∈ acc.map Prod.fst → k ∉ pairs.map Prod.fst) →
      pairs.foldl (fun d p => dset d p.1 p.2) acc = acc ++ pairs := by
  intro pairs
  induction pairs with
  | nil => simp
  | cons p rest ih =>
    intro acc hnd hdisj
    simp only [List.map_cons, List.nodup_cons] at hnd
    simp only [List.foldl_cons]
    have hfresh : p.1 ∉ acc.map Prod.fst := by
      intro hmem
      exact hdisj p.1 hmem (by simp)
    rw [dset_of_fresh p.2 hfresh]
    have hstep := ih (acc ++ [(p.1, p.2)]) hnd.2 ?_
    · simpa using hstep
    · intro k hk
      rcases (by simpa using hk : k ∈ acc.map Prod.fst ∨ k = p.1) with h | h
      · intro hr
        exact hdisj k h (by simp [hr])
      · exact h ▸ hnd.1

theorem dictOfList_of_nodup {pairs : List (κ × α)}
    (hnd : (pairs.map Prod.fst).Nodup) : dictOfList pairs = pairs := by
  simpa [dictOfList] using dictOfList_aux_of_nodup pairs [] hnd (by simp)

theorem map_update_id {d : Dict κ α} {k : κ} (v : α) (h : k ∉ d.map Prod.fst) :
    d.map (fun p => if p.1 = k then (k, v) else p) = d := by
  have : ∀ p ∈ d, (if p.1 = k then (k, v) else p) = p := by
    intro p hp
    have : p.1 ≠ k := by
      intro hk
      exact h (hk ▸ List.mem_map.mpr ⟨p, hp, rfl⟩)
    simp [this]
  simpa using List.map_congr_left this

theorem dset_cons_of_ne {d : Dict κ α} {p : κ × α} {k : κ} (v : α)
    (hp : p.1 ≠ k) (hm : dmem d k = true) :
    dset (p :: d) k v = p :: dset d k v := by
  have hm' : dmem (p :: d) k = true := by rw [dmem_cons, if_neg hp]; exact hm
  rw [dset, if_pos hm', dset, if_pos hm]
  simp [hp]

theorem dset_eq_self {d : Dict κ α} {k : κ} {v : α}
    (hnd : (d.map Prod.fst).Nodup) (hv : dget? d k = some v) : dset d k v = d := by
  induction d with
  | nil => simp [dget?] at hv
  | cons p d ih =>
    simp only [List.map_cons, List.nodup_cons] at hnd
    by_cases hp : p.1 = k
    · have hm : dmem (p :: d) k = true := by rw [dmem_cons, if_pos hp]
      rw [dset, if_pos hm]
      have hv' : v = p.2 := by
        rw [dget?_cons, if_pos hp] at hv
        exact (Option.some_injective _ hv).symm
      have hkd : k ∉ d.map Prod.fst := hp ▸ hnd.1
      rw [List.map_cons, if_pos hp, map_update_id v hkd, hv', ← hp]
    · rw [dget?_cons, if_neg hp] at hv
      have hm : dmem d k = true := by simp [dmem, hv]
      rw [dset_cons_of_ne v hp hm, ih hnd.2 hv]

theorem sum_snd_dset_int {d : Dict κ Int} {k : κ} {v : Int}
    (hnd : (d.map Prod.fst).Nodup) (hv : dget? d k = some v) (w : Int) :
    ((dset d k w).map Prod.snd).sum = (d.map Prod.snd).sum - v + w := by
  induction d with
  | nil => simp [dget?] at hv
  | cons p d ih =>
    simp only [List.map_cons, List.nodup_cons] at hnd
    by_cases hp : p.1 = k
    · have hm : dmem (p :: d) k = true := by rw [dmem_cons, if_pos hp]
      have hv' : v = p.2 := by
        rw [dget?_cons, if_pos hp] at hv
        exact (Option.some_injective _ hv).symm
      have hkd : k ∉ d.map Prod.fst := hp ▸ hnd.1
      rw [dset, if_pos hm, List.map_cons, if_pos hp, map_update_id w hkd]
      simp [hv']
      ring
    · rw [dget?_cons, if_neg hp] at hv
      have hm : dmem d k = true := by simp [dmem, hv]
      rw [dset_cons_of_ne w hp hm]
      simp only [List.map_cons, List.sum_cons, ih hnd.2 hv]
      ring

theorem dmem_foldl_dset_imp {β : Type} (f : β → κ) (g : Dict κ α → β → α) :
    ∀ (l : List β) (acc : Dict κ α) (k : κ),
      dmem (l.foldl (fun d b => dset d (f b) (g d b)) acc) k = true →
      dmem acc k = true ∨ k ∈ l.map f := by
  intro l
  induction l with
  | nil => simp
  | cons b rest ih =>
    intro acc k h
    simp only [List.foldl_cons] at h
    rcases ih _ k h with h' | h'
    · rcases dmem_dset_imp h' with h'' | h''
      · exact Or.inl h''
      · exact Or.inr (by simp [h''])
    · exact Or.inr (by simp [h'])

theorem dget?_dictOfList_eq_none {pairs : List (κ × α)} {k : κ}
    (h : k ∉ pairs.map Prod.fst) : dget? (dictOfList pairs) k = none := by
  cases o : dget? (dictOfList pairs) k with
  | none => rfl
  | some v =>
    have hm : dmem (dictOfList pairs) k = true := by simp [dmem, o]
    have := dmem_foldl_dset_imp (fun p : κ × α => p.1) (fun _ p => p.2) pairs [] k
    rcases this (by simpa [dictOfList] using hm) with h' | h'
    · simp [dmem, dget?] at h'
    · exact absurd h' h

theorem foldl_dset_ne_nil {β : Type} (f : β → κ) (g : Dict κ α → β → α) :
    ∀ (l : List β) (acc : Dict κ α), (acc ≠ [] ∨ l ≠ []) →
      l.foldl (fun d b => dset d (f b) (g d b)) acc ≠ [] := by
  intro l
  induction l with
  | nil =>
    intro acc h
    simpa using h.resolve_right (by simp)
  | cons b rest ih =>
    intro acc _
    simp only [List.foldl_cons]
    exact ih _ (Or.inl (dset_ne_nil _ _ _))

theorem pyMaxAux_first_max {κ : Type} :
    ∀ (l : List (κ × ℚ)) (p : κ × ℚ), ∃ l1 l2,
      p :: l = l1 ++ (pyMaxAux p l) :: l2 ∧
      (∀ q ∈ l1, q.2 < (pyMaxAux p l).2) ∧
      (∀ q ∈ p :: l, q.2 ≤ (pyMaxAux p l).2) := by
  intro l
  induction l with
  | nil =>
    intro p
    exact ⟨[], [], by simp [pyMaxAux], by simp, by simp [pyMaxAux]⟩
  | cons x xs ih =>
    intro p
    by_cases hx : x.2 > p.2
    · have hstep : pyMaxAux p (x :: xs) = pyMaxAux x xs := by simp [pyMaxAux, hx]
      obtain ⟨l1, l2, hsplit, hlt, hle⟩ := ih x
      refine ⟨p :: l1, l2, ?_, ?_, ?_⟩
      · rw [hstep, List.cons_append, ← hsplit]
      · intro q hq
        rw [hstep]
        rcases List.mem_cons.mp hq with h | h
        · subst h
          exact lt_of_lt_of_le hx (hle x (by simp))
        · exact hlt q h
      · intro q hq
        rw [hstep]
        rcases List.mem_cons.mp hq with h | h
        · subst h
          exact le_of_lt (lt_of_lt_of_le hx (hle x (by simp)))
        · exact hle q h
    · have hstep : pyMaxAux p (x :: xs) = pyMaxAux p xs := by simp [pyMaxAux, hx]
      have hxle : x.2 ≤ p.2 := le_of_not_lt hx
      obtain ⟨l1, l2, hsplit, hlt, hle⟩ := ih p
      have hple : p.2 ≤ (pyMaxAux p xs).2 := hle p (by simp)
      cases l1 with
      | nil =>
        simp only [List.nil_append, List.cons_eq_cons] at hsplit
        have hm : pyMaxAux p xs = p := hsplit.1.symm
        refine ⟨[], x :: xs, ?_, by simp, ?_⟩
        · rw [hstep, hm]
          simp
        · intro q hq
          rw [hstep]
          rcases List.mem_cons.mp hq with h | h
          · subst h; exact hple
          · rcases List.mem_cons.mp h with h' | h'
            · subst h'; exact le_trans hxle hple
            · exact hle q (by simp [h'])
      | cons a l1' =>
        simp only [List.cons_append, List.cons_eq_cons] at hsplit
        have ha : a = p := hsplit.1.symm
        have hxs : xs = l1' ++ pyMaxAux p xs :: l2 := hsplit.2
        have hplt : p.2 < (pyMaxAux p xs).2 := ha ▸ hlt a (by simp)
        refine ⟨p :: x :: l1', l2, ?_, ?_, ?_⟩
        · rw [hstep]
          exact congrArg (List.cons p) (congrArg (List.cons x) hxs)
        · intro q hq
          rw [hstep]
          rcases List.mem_cons.mp hq with h | h
          · subst h; exact hplt
          · rcases List.mem_cons.mp h with h' | h'
            · subst h'; exact lt_of_le_of_lt hxle hplt
            · exact hlt q (List.mem_cons.mpr (Or.inr h'))
        · intro q hq
          rw [hstep]
          rcases List.mem_cons.mp hq with h | h
          · subst h; exact hple
          · rcases List.mem_cons.mp h with h' | h'
            · subst h'; exact le_trans hxle hple
            · exact hle q (List.mem_cons.mpr (Or.inr h'))

theorem pyMaxAux_mem {κ : Type} (l : List (κ × ℚ)) (p : κ × ℚ) :
    pyMaxAux p l ∈ p :: l := by
  obtain ⟨l1, l2, hsplit, -, -⟩ := pyMaxAux_first_max l p
  rw [hsplit]
  simp

end DictLemmas

/-- A concrete RNG stream for witnesses (the draws are never consulted by
uncertainty-free inputs). -/
def rngZero : Rng := fun _ _ _ => 0

/-- Lookup of the Score stored for a (choice, factor) pair in the organized
score table. -/
def lookupScore (org : Dict Int (Dict Int Score)) (cid fid : Int) : Option Score :=
  match dget? org cid with
  | none => none
  | some inner => dget? inner fid

/-- The accumulation loop of `calculate_weighted_score`, abstracted over the
score lookup. -/
def weightedTotal (w : Dict Int ℚ) (look : Int → Option Score) : ℚ :=
  w.foldl
    (fun total fw =>
      match look fw.1 with
      | some s => total + s.score * fw.2
      | none => total)
    0

/-- The accumulation loop of `simulate_once`, abstracted over the score
lookup. -/
def sampledTotal (w : Dict Int ℚ) (look : Int → Option Score) (rng : Rng)
    (ix : ℕ) : ℚ × ℕ :=
  w.foldl
    (fun acc fw =>
      match look fw.1 with
      | some s =>
        let r := sample_score s rng acc.2
        (acc.1 + r.1 * fw.2, r.2)
      | none => acc)
    (0, ix)

theorem weightedTotal_none {look : Int → Option Score} (h : ∀ k, look k = none) :
    ∀ (w : Dict Int ℚ) (acc : ℚ),
      w.foldl
        (fun total fw =>
          match look fw.1 with
          | some s => total + s.score * fw.2
          | none => total)
        acc = acc := by
  intro w
  induction w with
  | nil => intro acc; rfl
  | cons fw w ih =>
    intro acc
    simp only [List.foldl_cons, h fw.1]
    exact ih acc

theorem sampledTotal_none {look : Int → Option Score} {rng : Rng}
    (h : ∀ k, look k = none) :
    ∀ (w : Dict Int ℚ) (acc : ℚ × ℕ),
      w.foldl
        (fun acc fw =>
          match look fw.1 with
          | some s =>
            let r := sample_score s rng acc.2
            (acc.1 + r.1 * fw.2, r.2)
          | none => acc)
        acc = acc := by
  intro w
  induction w with
  | nil => intro acc; rfl
  | cons fw w ih =>
    intro acc
    simp only [List.foldl_cons, h fw.1]
    exact ih acc

theorem weightedTotal_congr {w : Dict Int ℚ} {look look' : Int → Option Score}
    (h : ∀ k ∈ w.map Prod.fst, look k = look' k) :
    weightedTotal w look = weightedTotal w look' := by
  rw [weightedTotal, weightedTotal]
  suffices haux : ∀ (w' : Dict Int ℚ) (acc : ℚ),
      (∀ k ∈ w'.map Prod.fst, look k = look' k) →
      w'.foldl
        (fun total fw =>
          match look fw.1 with
          | some s => total + s.score * fw.2
          | none => total) acc =
      w'.foldl
        (fun total fw =>
          match look' fw.1 with
          | some s => total + s.score * fw.2
          | none => total) acc by
    exact haux w 0 h
  intro w'
  induction w' with
  | nil => intro acc _; rfl
  | cons fw w' ih =>
    intro acc hh
    simp only [List.foldl_cons, hh fw.1 (by simp)]
    exact ih _ (fun k hk => hh k (by simp [hk]))

theorem sampledTotal_congr {w : Dict Int ℚ} {look look' : Int → Option Score}
    {rng : Rng} {ix : ℕ}
    (h : ∀ k ∈ w.map Prod.fst, look k = look' k) :
    sampledTotal w look rng ix = sampledTotal w look' rng ix := by
  rw [sampledTotal, sampledTotal]
  suffices haux : ∀ (w' : Dict Int ℚ) (acc : ℚ × ℕ),
      (∀ k ∈ w'.map Prod.fst, look k = look' k) →
      w'.foldl
        (fun acc fw =>
          match look fw.1 with
          | some s =>
            let r := sample_score s rng acc.2
            (acc.1 + r.1 * fw.2, r.2)
          | none => acc) acc =
      w'.foldl
        (fun acc fw =>
          match look' fw.1 with
          | some s =>
            let r := sample_score s rng acc.2
            (acc.1 + r.1 * fw.2, r.2)
          | none => acc) acc by
    exact haux w (0, ix) h
  intro w'
  induction w' with
  | nil => intro acc _; rfl
  | cons fw w' ih =>
    intro acc hh
    simp only [List.foldl_cons, hh fw.1 (by simp)]
    exact ih _ (fun k hk => hh k (by simp [hk]))

theorem calc_eq_weightedTotal (sim : DecisionSimulator) (cid : Int) :
    sim.calculate_weighted_score cid
      = weightedTotal sim.normalized_weights (lookupScore sim.scores cid) := by
  rw [DecisionSimulator.calculate_weighted_score]
  cases h : dget? sim.scores cid with
  | none =>
    have hl : ∀ k, lookupScore sim.scores cid k = none := by
      intro k
      rw [lookupScore, h]
    rw [weightedTotal, weightedTotal_none hl]
  | some inner =>
    have hl : lookupScore sim.scores cid = fun k => dget? inner k := by
      funext k
      rw [lookupScore, h]
    rw [hl, weightedTotal]

theorem simulate_eq_sampledTotal (sim : DecisionSimulator) (cid : Int)
    (rng : Rng) (ix : ℕ) :
    sim.simulate_once cid rng ix
      = sampledTotal sim.normalized_weights (lookupScore sim.scores cid) rng ix := by
  rw [DecisionSimulator.simulate_once]
  cases h : dget? sim.scores cid with
  | none =>
    have hl : ∀ k, lookupScore sim.scores cid k = none := by
      intro k
      rw [lookupScore, h]
    rw [sampledTotal, sampledTotal_none hl]
  | some inner =>
    have hl : lookupScore sim.scores cid = fun k => dget? inner k := by
      funext k
      rw [lookupScore, h]
    rw [hl, sampledTotal]

theorem lookupScore_organize_step (org : Dict Int (Dict Int Score)) (s : Score)
    (cid fid : Int) :
    lookupScore (dset org s.choice_id (dset (dgetD org s.choice_id []) s.factor_id s))
        cid fid
      = if s.choice_id = cid ∧ s.factor_id = fid then some s
        else lookupScore org cid fid := by
  by_cases hc : s.choice_id = cid
  · subst hc
    by_cases hk : s.factor_id = fid
    · subst hk
      simp [lookupScore, dget?_dset_self]
    · simp only [lookupScore, dget?_dset_self]
      rw [dget?_dset_ne _ _ _ _ (fun he => hk he.symm)]
      cases ho : dget? org s.choice_id with
      | none => simp [dgetD, ho, hk, lookupScore, dget?_nil]
      | some inner => simp [dgetD, ho, hk, lookupScore]
  · have hne : ¬(s.choice_id = cid ∧ s.factor_id = fid) := by
      intro hh
      exact hc hh.1
    rw [lookupScore, dget?_dset_ne _ _ _ _ (fun he => hc he.symm), if_neg hne]
    rfl

theorem lookupScore_filter (keep : Int → Bool) (scores : List Score)
    (cid fid : Int) (hk : keep fid = true) :
    lookupScore (organizeScores (scores.filter (fun s => keep s.factor_id))) cid fid
      = lookupScore (organizeScores scores) cid fid := by
  induction scores using List.reverseRecOn with
  | nil => rfl
  | append_singleton l s ih =>
    have horg : ∀ l' : List Score, organizeScores (l' ++ [s])
        = dset (organizeScores l') s.choice_id
            (dset (dgetD (organizeScores l') s.choice_id []) s.factor_id s) := by
      intro l'
      rw [organizeScores, organizeScores, List.foldl_append]
      rfl
    rw [List.filter_append]
    by_cases hs : keep s.factor_id = true
    · have : List.filter (fun s => keep s.factor_id) [s] = [s] := by
        simp [List.filter, hs]
      rw [this, horg, horg, lookupScore_organize_step, lookupScore_organize_step, ih]
    · have : List.filter (fun s => keep s.factor_id) [s] = [] := by
        simp [List.filter, hs]
      have hne : ¬(s.choice_id = cid ∧ s.factor_id = fid) := by
        intro hh
        apply hs
        rw [hh.2]
        exact hk
      rw [this, List.append_nil, horg, lookupScore_organize_step, if_neg hne, ih]

/-- C10: a Score whose factor id is not among the supplied factors
contributes nothing to a choice's deterministic or sampled weighted total —
dropping all such scores changes neither `calculate_weighted_score` nor
`simulate_once` (including its random-draw consumption). -/
theorem unknown_factor_scores_ignored (choices : List Choice)
    (factors : List Factor) (scores : List Score) (cid : Int) (rng : Rng) (ix : ℕ) :
    (DecisionSimulator.init choices factors scores).calculate_weighted_score cid
        = (DecisionSimulator.init choices factors
            (scores.filter (fun s => (factors.map Factor.id).contains s.factor_id))
          ).calculate_weighted_score cid ∧
    (DecisionSimulator.init choices factors scores).simulate_once cid rng ix
        = (DecisionSimulator.init choices factors
            (scores.filter (fun s => (factors.map Factor.id).contains s.factor_id))
          ).simulate_once cid rng ix := by
  have hkeys : ∀ k, k ∈ (normalizeWeights factors).map Prod.fst →
      (factors.map Factor.id).contains k = true := by
    intro k hkmem
    have hm : dmem (normalizeWeights factors) k = true :=
      (dmem_iff_mem_keys _ k).mpr hkmem
    have := dmem_foldl_dset_imp (fun p : Int × ℚ => p.1) (fun _ p => p.2)
      (factors.map (fun f =>
        (f.id, if (factors.map Factor.weight).sum > 0
               then f.weight / (factors.map Factor.weight).sum
               else 1 / (factors.length : ℚ)))) [] k
    rcases this (by simpa [normalizeWeights, dictOfList] using hm) with h' | h'
    · simp [dmem, dget?] at h'
    · rw [List.map_map] at h'
      exact List.elem_eq_true_of_mem h'
  have hlook : ∀ k, k ∈ (normalizeWeights factors).map Prod.fst →
      lookupScore (organizeScores scores) cid k
        = lookupScore (organizeScores
            (scores.filter (fun s => (factors.map Factor.id).contains s.factor_id)))
            cid k := by
    intro k hkmem
    exact (lookupScore_filter _ scores cid k (hkeys k hkmem)).symm
  constructor
  · rw [calc_eq_weightedTotal, calc_eq_weightedTotal]
    exact weightedTotal_congr hlook
  · rw [simulate_eq_sampledTotal, simulate_eq_sampledTotal]
    exact sampledTotal_congr hlook

/-- C7: weight normalization divides by the raw total when it is positive,
falls back to the uniform share `1/n` when the raw total is zero (and the
factor list is non-empty), and produces the empty mapping for no factors. -/
theorem normalizeWeights_spec (factors : List Factor)
    (hnd : (factors.map Factor.id).Nodup) :
    ((factors.map Factor.weight).sum > 0 → ∀ f ∈ factors,
        dget? (normalizeWeights factors) f.id
          = some (f.weight / (factors.map Factor.weight).sum)) ∧
    ((factors.map Factor.weight).sum = 0 → factors ≠ [] → ∀ f ∈ factors,
        dget? (normalizeWeights factors) f.id = some (1 / (factors.length : ℚ))) ∧
    (factors = [] → normalizeWeights factors = []) := by
  have hkeys : ((factors.map (fun f =>
      (f.id, if (factors.map Factor.weight).sum > 0
             then f.weight / (factors.map Factor.weight).sum
             else 1 / (factors.length : ℚ)))).map Prod.fst).Nodup := by
    rw [List.map_map]
    exact hnd
  have hflat : normalizeWeights factors = factors.map (fun f =>
      (f.id, if (factors.map Factor.weight).sum > 0
             then f.weight / (factors.map Factor.weight).sum
             else 1 / (factors.length : ℚ))) := by
    simp only [normalizeWeights]
    exact dictOfList_of_nodup hkeys
  refine ⟨?_, ?_, ?_⟩
  · intro hpos f hf
    rw [hflat]
    have hmem : (f.id, f.weight / (factors.map Factor.weight).sum) ∈
        factors.map (fun f =>
          (f.id, if (factors.map Factor.weight).sum > 0
                 then f.weight / (factors.map Factor.weight).sum
                 else 1 / (factors.length : ℚ))) := by
      refine List.mem_map.mpr ⟨f, hf, ?_⟩
      rw [if_pos hpos]
    exact dget?_of_mem_nodup (by rw [List.map_map]; exact hnd) hmem
  · intro hzero hne f hf
    rw [hflat]
    have hnpos : ¬(factors.map Factor.weight).sum > 0 := by rw [hzero]; exact lt_irrefl 0
    have hmem : (f.id, 1 / (factors.length : ℚ)) ∈
        factors.map (fun f =>
          (f.id, if (factors.map Factor.weight).sum > 0
                 then f.weight / (factors.map Factor.weight).sum
                 else 1 / (factors.length : ℚ))) := by
      refine List.mem_map.mpr ⟨f, hf, ?_⟩
      rw [if_neg hnpos]
    exact dget?_of_mem_nodup (by rw [List.map_map]; exact hnd) hmem
  · intro h
    subst h
    rfl

theorem normalizeWeights_spec_witness :
    dget? (normalizeWeights
      [{ id := 1, name := "a", weight := 3 }, { id := 2, name := "b", weight := 1 }]) 1
      = some (3 / 4) := by
  have h := (normalizeWeights_spec
    [{ id := 1, name := "a", weight := 3 }, { id := 2, name := "b", weight := 1 }]
    (by decide)).1 (by norm_num) { id := 1, name := "a", weight := 3 } (by simp)
  norm_num at h
  exact h

/-- C8: a single sampling step returns the raw score unchanged when the
uncertainty is zero, returns the clamp into [0, 10] of the requested normal
draw (whose mean is the score and whose standard deviation is the
uncertainty) when the uncertainty is positive, and therefore always yields a
value in [0, 10] whenever the raw score lies in [0, 10]. -/
theorem sample_score_contract (s : Score) (rng : Rng) (ix : ℕ) :
    (s.uncertainty = 0 → sample_score s rng ix = (s.score, ix)) ∧
    (s.uncertainty > 0 →
      (sample_score s rng ix).1 = max 0 (min 10 (rng ix s.score s.uncertainty))) ∧
    (0 ≤ s.score → s.score ≤ 10 →
      0 ≤ (sample_score s rng ix).1 ∧ (sample_score s rng ix).1 ≤ 10) := by
  refine ⟨?_, ?_, ?_⟩
  · intro h
    simp [sample_score, h]
  · intro h
    simp [sample_score, h]
  · intro h0 h10
    by_cases h : s.uncertainty > 0
    · rw [sample_score, if_pos h]
      exact ⟨le_max_left 0 _, max_le (by norm_num) (min_le_left _ _)⟩
    · rw [sample_score, if_neg h]
      exact ⟨h0, h10⟩

theorem sample_score_contract_witness :
    sample_score { choice_id := 1, factor_id := 1, score := 3, uncertainty := 0 }
        rngZero 0 = (3, 0) ∧
    0 ≤ (sample_score { choice_id := 1, factor_id := 1, score := 3, uncertainty := 0 }
        rngZero 0).1 :=
  ⟨(sample_score_contract
      { choice_id := 1, factor_id := 1, score := 3, uncertainty := 0 } rngZero 0).1 rfl,
   ((sample_score_contract
      { choice_id := 1, factor_id := 1, score := 3, uncertainty := 0 } rngZero 0).2.2
      (by norm_num) (by norm_num)).1⟩

/-- C3 counterexample: sampling a Score with negative uncertainty is not
rejected — the sampler succeeds and returns the raw score (7 here),
consuming no random draw. -/
theorem sample_score_negative_uncertainty_cex :
    sample_score { choice_id := 1, factor_id := 1, score := 7, uncertainty := -2 }
      rngZero 0 = (7, 0) := by
  norm_num [sample_score]

/-- C3 amended: a Score with negative uncertainty is silently treated as
deterministic — the sampler returns the raw score unchanged and consumes no
random draw (it is neither rejected nor clamped). -/
theorem sample_score_negative_uncertainty (s : Score) (rng : Rng) (ix : ℕ)
    (h : s.uncertainty < 0) : sample_score s rng ix = (s.score, ix) := by
  have hn : ¬s.uncertainty > 0 := not_lt.mpr h.le
  rw [sample_score, if_neg hn]

theorem sample_score_negative_uncertainty_witness :
    sample_score { choice_id := 1, factor_id := 1, score := 9, uncertainty := -1 }
      rngZero 5 = (9, 5) :=
  sample_score_negative_uncertainty
    { choice_id := 1, factor_id := 1, score := 9, uncertainty := -1 } rngZero 5
    (by norm_num)

/-- C4: requesting a sensitivity analysis for a factor id absent from the
supplied factors fails with the key-not-found error for that id. -/
theorem sensitivity_analysis_missing_factor (choices : List Choice)
    (factors : List Factor) (scores : List Score) (factor_id : Int)
    (weight_range : ℚ × ℚ) (steps : ℕ)
    (h : factor_id ∉ factors.map Factor.id) :
    (DecisionSimulator.init choices factors scores).sensitivity_analysis
      factor_id weight_range steps = .error (.keyError factor_id) := by
  have hw : dget? (DecisionSimulator.init choices factors scores).normalized_weights
      factor_id = none := by
    apply dget?_dictOfList_eq_none
    rw [List.map_map]
    exact h
  have hf : dget? (DecisionSimulator.init choices factors scores).factors
      factor_id = none := by
    apply dget?_dictOfList_eq_none
    rw [List.map_map]
    exact h
  cases steps with
  | zero =>
    simp [DecisionSimulator.sensitivity_analysis, linspace, sensLoop, hf]
  | succ n =>
    simp [DecisionSimulator.sensitivity_analysis, linspace, List.range_succ_eq_map,
      sensLoop, sensStep, hw]

theorem sensitivity_analysis_missing_factor_witness :
    (DecisionSimulator.init [{ id := 1, name := "A" }]
      [{ id := 1, name := "f1", weight := 1 }, { id := 2, name := "f2", weight := 1 }]
      []).sensitivity_analysis 99 (1/2, 2) 10 = .error (.keyError 99) :=
  sensitivity_analysis_missing_factor [{ id := 1, name := "A" }]
    [{ id := 1, name := "f1", weight := 1 }, { id := 2, name := "f2", weight := 1 }]
    [] 99 (1/2, 2) 10 (by decide)

/-- A two-factor, one-choice simulator used to exhibit the sensitivity
loop's mutation of the shared weight table. -/
def simTwoFactors : DecisionSimulator :=
  DecisionSimulator.init
    [{ id := 1, name := "A" }]
    [{ id := 1, name := "f1", weight := 1 }, { id := 2, name := "f2", weight := 1 }]
    []

/-- C2 counterexample: after `sensitivity_analysis 1 (1/2, 2) 2` succeeds,
the engine's shared weight table entry for factor 2 has drifted from 1/2 to
2/5 — the table after analyze differs from the table before. -/
theorem sensitivity_table_mutation_cex :
    (simTwoFactors.sensitivity_analysis 1 (1/2, 2) 2).toOption.map
        (fun p => dget? p.2.normalized_weights 2) = some (some (2/5)) ∧
    dget? simTwoFactors.normalized_weights 2 = some (1/2) ∧
    (2/5 : ℚ) ≠ 1/2 := by
  refine ⟨?_, ?_, by norm_num⟩ <;>
  norm_num [simTwoFactors, DecisionSimulator.init, normalizeWeights, organizeScores,
    dictOfList, dset, dmem, dget?, dgetD, List.find?, List.foldl,
    DecisionSimulator.sensitivity_analysis, sensLoop, sensStep, renormalize, scoresDict,
    argmaxFirst, pyMaxAux, linspace, List.range, List.range.loop,
    DecisionSimulator.calculate_weighted_score, defaultChoice, Except.toOption]

theorem sensLoop_target_entry (sim : DecisionSimulator) (factor_id : Int) (ow : ℚ) :
    ∀ (ms : List ℚ) (w : Dict Int ℚ) (entries : List SensitivityEntry)
      (wfin : Dict Int ℚ),
      sensLoop sim factor_id ow ms w = .ok (entries, wfin) →
      dget? wfin factor_id = dget? w factor_id := by
  intro ms
  induction ms with
  | nil =>
    intro w entries wfin h
    simp only [sensLoop] at h
    obtain ⟨-, hw⟩ := Prod.mk.injEq .. ▸ (Except.ok.injEq .. ▸ h)
    rw [← hw]
  | cons m ms ih =>
    intro w entries wfin h
    simp only [sensLoop] at h
    split at h
    · exact absurd h (by simp)
    · rename_i entry w' hstep
      split at h
      · exact absurd h (by simp)
      · rename_i es wfin' hrec
        simp only [Except.ok.injEq, Prod.mk.injEq] at h
        have hwfin : wfin = wfin' := h.2.symm
        have hq := ih w' es wfin' hrec
        rw [hwfin, hq]
        simp only [sensStep] at hstep
        split at hstep
        · exact absurd hstep (by simp)
        · rename_i old hold
          split at hstep
          · exact absurd hstep (by simp)
          · rename_i temp hre
            split at hstep
            · exact absurd hstep (by simp)
            · rename_i wname hmax
              simp only [Except.ok.injEq, Prod.mk.injEq] at hstep
              rw [← hstep.2, dget?_dset_self, hold]

/-- C2 amended: `sensitivity_analysis` mutates the engine's shared weight
table in place across iterations and restores only the perturbed factor
after each one, so on success only the target factor's entry is guaranteed
unchanged — the other factors' entries can drift (the counterexample shows
the table after analyze differing from the table before). -/
theorem sensitivity_preserves_target_entry (sim : DecisionSimulator)
    (factor_id : Int) (weight_range : ℚ × ℚ) (steps : ℕ)
    (r : SensitivityReport) (sim' : DecisionSimulator)
    (h : sim.sensitivity_analysis factor_id weight_range steps = .ok (r, sim')) :
    dget? sim'.normalized_weights factor_id
      = dget? sim.normalized_weights factor_id := by
  simp only [DecisionSimulator.sensitivity_analysis] at h
  cases hloop : sensLoop sim factor_id (dgetD sim.normalized_weights factor_id 1)
      (linspace weight_range.1 weight_range.2 steps) sim.normalized_weights with
  | error e => rw [hloop] at h; exact absurd h (by simp)
  | ok q =>
    rw [hloop] at h
    cases hfac : dget? sim.factors factor_id with
    | none => rw [hfac] at h; exact absurd h (by simp)
    | some f =>
      rw [hfac] at h
      simp only [Except.ok.injEq, Prod.mk.injEq] at h
      have hsim' : sim' = { sim with normalized_weights := q.2 } := h.2.symm
      rw [hsim']
      exact sensLoop_target_entry sim factor_id _ _ _ q.1 q.2 (by rw [hloop])

theorem sensitivity_preserves_target_entry_witness :
    ∃ p : SensitivityReport × DecisionSimulator,
      simTwoFactors.sensitivity_analysis 1 (1/2, 2) 2 = .ok p ∧
      dget? p.2.normalized_weights 1 = dget? simTwoFactors.normalized_weights 1 := by
  cases hok : simTwoFactors.sensitivity_analysis 1 (1/2, 2) 2 with
  | error e =>
    norm_num [simTwoFactors, DecisionSimulator.init, normalizeWeights, organizeScores,
      dictOfList, dset, dmem, dget?, dgetD, List.find?, List.foldl,
      DecisionSimulator.sensitivity_analysis, sensLoop, sensStep, renormalize, scoresDict,
      argmaxFirst, pyMaxAux, linspace, List.range, List.range.loop,
      DecisionSimulator.calculate_weighted_score, defaultChoice] at hok
    exact absurd hok (by simp)
  | ok p =>
    exact ⟨p, rfl,
      sensitivity_preserves_target_entry simTwoFactors 1 (1/2, 2) 2 p.1 p.2
        (by rw [hok])⟩

theorem linspace_head (lo hi : ℚ) (n : ℕ) : ∃ t, linspace lo hi (n + 1) = lo :: t := by
  refine ⟨((List.range n).map Nat.succ).map
    (fun (i : ℕ) => lo + (hi - lo) * (i : ℚ) / (((n + 1 : ℕ) : ℚ) - 1)), ?_⟩
  rw [linspace, List.range_succ_eq_map, List.map_cons]
  congr 1
  simp

theorem map_pair_eta (w : Dict Int ℚ) : w.map (fun p => (p.1, p.2)) = w := by
  have h : ∀ p ∈ w, (p.1, p.2) = p := fun p _ => rfl
  exact (List.map_congr_left h).trans (List.map_id' w)

theorem renormalize_sum_one {w : Dict Int ℚ} (h : (w.map (fun p => p.2)).sum = 1) :
    renormalize w = .ok w := by
  rw [renormalize]
  simp only [h, one_ne_zero, if_false, div_one]
  rw [map_pair_eta]

/-- C6 amended: the sensitivity entry at multiplier 1.0 reproduces the
unperturbed deterministic scores when it is the first step of the sweep
(lower bound 1.0): the first entry scores every choice exactly as
`calculate_weighted_score` with the original table. At later steps a
multiplier of 1.0 no longer does so, because earlier iterations have already
drifted the shared table (see the counterexample). -/
theorem sensitivity_first_multiplier_one (sim : DecisionSimulator)
    (factor_id : Int) (weight_range : ℚ × ℚ) (steps : ℕ)
    (r : SensitivityReport) (sim' : DecisionSimulator)
    (hnd : (sim.normalized_weights.map Prod.fst).Nodup)
    (hsum : (sim.normalized_weights.map (fun p => p.2)).sum = 1)
    (hmem : dmem sim.normalized_weights factor_id = true)
    (hsteps : 1 ≤ steps) (hlo : weight_range.1 = 1)
    (hok : sim.sensitivity_analysis factor_id weight_range steps = .ok (r, sim')) :
    ∃ e es, r.analysis = e :: es ∧ e.multiplier = 1 ∧ e.scores = scoresDict sim := by
  obtain ⟨n, rfl⟩ : ∃ n, steps = n + 1 :=
    ⟨steps - 1, (Nat.succ_pred_eq_of_pos hsteps).symm⟩
  obtain ⟨v, hv⟩ : ∃ v, dget? sim.normalized_weights factor_id = some v := by
    cases ho : dget? sim.normalized_weights factor_id with
    | none => rw [dmem, ho] at hmem; exact absurd hmem (by simp)
    | some v => exact ⟨v, rfl⟩
  have how : dgetD sim.normalized_weights factor_id 1 = v := by
    rw [dgetD, hv]
    rfl
  obtain ⟨t, hls⟩ := linspace_head 1 weight_range.2 n
  simp only [DecisionSimulator.sensitivity_analysis] at hok
  rw [hlo, hls, how] at hok
  simp only [sensLoop] at hok
  have hstepbase : sensStep sim factor_id v 1 sim.normalized_weights
      = match argmaxFirst (scoresDict sim) with
        | none => .error .valueError
        | some wname =>
          .ok ({ multiplier := 1, scores := scoresDict sim, winner := wname },
               dset sim.normalized_weights factor_id v) := by
    simp only [sensStep, hv, mul_one, dset_eq_self hnd hv, renormalize_sum_one hsum]
  cases hmax : argmaxFirst (scoresDict sim) with
  | none =>
    simp only [hmax] at hstepbase
    rw [hstepbase] at hok
    exact absurd hok (by simp)
  | some wname =>
    simp only [hmax] at hstepbase
    rw [hstepbase] at hok
    cases hrec : sensLoop sim factor_id v t (dset sim.normalized_weights factor_id v) with
    | error e =>
      simp only [hrec] at hok
      exact absurd hok (by simp)
    | ok q =>
      obtain ⟨es, wfin⟩ := q
      simp only [hrec] at hok
      cases hfac : dget? sim.factors factor_id with
      | none =>
        simp only [hfac] at hok
        exact absurd hok (by simp)
      | some f =>
        simp only [hfac, Except.ok.injEq, Prod.mk.injEq] at hok
        refine ⟨{ multiplier := 1, scores := scoresDict sim, winner := wname }, es,
          ?_, rfl, rfl⟩
        rw [← hok.1]

theorem sensitivity_first_multiplier_one_witness :
    ∃ p : SensitivityReport × DecisionSimulator,
      simTwoFactors.sensitivity_analysis 1 (1, 2) 2 = .ok p ∧
      ∃ e es, p.1.analysis = e :: es ∧ e.multiplier = 1 ∧
        e.scores = scoresDict simTwoFactors := by
  cases hok : simTwoFactors.sensitivity_analysis 1 (1, 2) 2 with
  | error e =>
    norm_num [simTwoFactors, DecisionSimulator.init, normalizeWeights, organizeScores,
      dictOfList, dset, dmem, dget?, dgetD, List.find?, List.foldl,
      DecisionSimulator.sensitivity_analysis, sensLoop, sensStep, renormalize, scoresDict,
      argmaxFirst, pyMaxAux, linspace, List.range, List.range.loop,
      DecisionSimulator.calculate_weighted_score, defaultChoice] at hok
    exact absurd hok (by simp)
  | ok p =>
    refine ⟨p, rfl, ?_⟩
    refine sensitivity_first_multiplier_one simTwoFactors 1 (1, 2) 2 p.1 p.2 ?_ ?_ ?_
      (by norm_num) rfl (by rw [hok])
    · norm_num [simTwoFactors, DecisionSimulator.init, normalizeWeights, dictOfList,
        dset, dmem, dget?, List.find?, List.foldl]
    · norm_num [simTwoFactors, DecisionSimulator.init, normalizeWeights, dictOfList,
        dset, dmem, dget?, List.find?, List.foldl]
    · norm_num [simTwoFactors, DecisionSimulator.init, normalizeWeights, dictOfList,
        dset, dmem, dget?, List.find?, List.foldl]

/-- The simulator for the C6 counterexample: one choice scoring 10 on factor
1 and 0 on factor 2, both factors of equal raw weight. -/
def simC6 : DecisionSimulator :=
  DecisionSimulator.init
    [{ id := 1, name := "A" }]
    [{ id := 1, name := "f1", weight := 1 }, { id := 2, name := "f2", weight := 1 }]
    [{ choice_id := 1, factor_id := 1, score := 10 },
     { choice_id := 1, factor_id := 2, score := 0 }]

/-- C6 counterexample: sweeping factor 1 over (1/2, 2) in 4 steps puts
multiplier 1.0 at index 1; that entry reports 30/7 for choice "A" while the
unperturbed deterministic score is 5 — the multiplier-1.0 entry does not
reproduce the unperturbed scores. -/
theorem sensitivity_multiplier_one_drift_cex :
    ((simC6.sensitivity_analysis 1 (1/2, 2) 4).toOption.bind
        (fun p => p.1.analysis[1]?)).map
        (fun e => (e.multiplier, dget? e.scores ("A"))) = some (1, some (30/7)) ∧
    simC6.calculate_weighted_score 1 = 5 ∧
    (30/7 : ℚ) ≠ 5 := by
  refine ⟨?_, ?_, by norm_num⟩ <;>
  norm_num [simC6, DecisionSimulator.init, normalizeWeights, organizeScores, dictOfList,
    dset, dmem, dget?, dgetD, List.find?, List.foldl, DecisionSimulator.sensitivity_analysis,
    sensLoop, sensStep, renormalize, scoresDict, argmaxFirst, pyMaxAux, linspace,
    List.range, List.range.loop, DecisionSimulator.calculate_weighted_score,
    defaultChoice, Except.toOption]

/-- Simulator for the tie-break counterexample: choices supplied in the
order id 2, then id 1, with identical deterministic scores. -/
def simC5 : DecisionSimulator :=
  DecisionSimulator.init
    [{ id := 2, name := "B" }, { id := 1, name := "A" }]
    [{ id := 1, name := "f", weight := 1 }]
    [{ choice_id := 2, factor_id := 1, score := 5 },
     { choice_id := 1, factor_id := 1, score := 5 }]

/-- C5 counterexample: with choices supplied as [id 2, id 1] and both tied
at 5, the round's winner is choice 2 (win_rate 1, while choice 1 gets 0) and
the rankings come out [2, 1] — not the ascending-id order [1, 2] the claim
requires. -/
theorem run_tie_break_cex :
    (simC5.run_simulation 1 rngZero).toOption.map
        (fun r => (r.rankings.map (fun st => st.choice_id),
                   (dget? r.choice_results 1).map (fun st => (st.mean, st.win_rate)),
                   (dget? r.choice_results 2).map (fun st => (st.mean, st.win_rate)))) =
      some ([2, 1], some (5, 0), some (5, 1)) ∧
    ([2, 1] : List Int) ≠ [1, 2] ∧ (0 : ℚ) ≠ 1 := by
  refine ⟨?_, by decide, by norm_num⟩
  norm_num [simC5, DecisionSimulator.init, normalizeWeights, organizeScores, dictOfList,
    dset, dmem, dget?, dgetD, List.find?, List.foldl, DecisionSimulator.run_simulation,
    MAX_SIMULATION_RUNS, simRounds, simulationRound, roundFoldAux, initState,
    DecisionSimulator.simulate_once, sample_score, argmaxFirst, pyMaxAux, buildStats,
    choiceStats, sortAsc, insertAsc, npPercentile, sortByMeanDesc, insertDesc,
    defaultChoice, Except.toOption]

theorem insertDesc_of_head_not_gt (x : ChoiceStats) (l : List ChoiceStats)
    (h : ∀ y ∈ l.head?, ¬y.mean > x.mean) : insertDesc x l = x :: l := by
  cases l with
  | nil => rfl
  | cons y ys => rw [insertDesc, if_neg (h y rfl)]

theorem sortByMeanDesc_all_equal (sl : List ChoiceStats)
    (h : ∀ a ∈ sl, ∀ b ∈ sl, a.mean = b.mean) : sortByMeanDesc sl = sl := by
  induction sl with
  | nil => rfl
  | cons x xs ih =>
    have hxs : sortByMeanDesc xs = xs :=
      ih (fun a ha b hb => h a (by simp [ha]) b (by simp [hb]))
    have hstep : sortByMeanDesc (x :: xs) = insertDesc x (sortByMeanDesc xs) := rfl
    rw [hstep, hxs]
    apply insertDesc_of_head_not_gt
    intro y hy
    cases xs with
    | nil => simp at hy
    | cons z zs =>
      have hz : y = z := by
        have := hy
        simp [List.head?] at this
        exact this.symm
      rw [hz, h z (by simp) x (by simp)]
      exact lt_irrefl _

theorem filter_insertDesc (x : ChoiceStats) (l : List ChoiceStats) (m : ℚ) :
    (insertDesc x l).filter (fun st => decide (st.mean = m))
      = if x.mean = m
        then x :: l.filter (fun st => decide (st.mean = m))
        else l.filter (fun st => decide (st.mean = m)) := by
  induction l with
  | nil =>
    by_cases hx : x.mean = m <;> simp [insertDesc, hx]
  | cons y ys ih =>
    by_cases hgt : y.mean > x.mean
    · rw [insertDesc, if_pos hgt]
      by_cases hy : y.mean = m
      · by_cases hx : x.mean = m
        · exfalso
          have hyx : y.mean = x.mean := by rw [hy, hx]
          exact absurd hgt (by rw [hyx]; exact lt_irrefl _)
        · simp [List.filter_cons, hy, hx, ih]
      · by_cases hx : x.mean = m <;> simp [List.filter_cons, hy, hx, ih]
    · rw [insertDesc, if_neg hgt]
      by_cases hx : x.mean = m <;> simp [List.filter_cons, hx]

theorem sortByMeanDesc_stable_filter (sl : List ChoiceStats) (m : ℚ) :
    (sortByMeanDesc sl).filter (fun st => decide (st.mean = m))
      = sl.filter (fun st => decide (st.mean = m)) := by
  induction sl with
  | nil => rfl
  | cons x xs ih =>
    have hstep : sortByMeanDesc (x :: xs) = insertDesc x (sortByMeanDesc xs) := rfl
    rw [hstep, filter_insertDesc]
    by_cases hx : x.mean = m <;> simp [List.filter_cons, hx, ih]

/-- C5 amended: ties are broken by supplied order, not ascending id. The
round winner `argmaxFirst` picks the first entry, in insertion order, whose
total is strictly above everything before it and at least everything else;
the rankings sort is stable — for every mean value `m`, the subsequence of
equal-`m` entries in the sorted output equals their supplied-order
subsequence, so equal-mean choices keep the order in which they were
supplied even among choices with other means; and `run_simulation`'s
rankings are exactly that stable descending-by-mean sort of the per-choice
results. -/
theorem tie_break_supplied_order :
    (∀ (p : Int × ℚ) (l : List (Int × ℚ)), ∃ w l1 l2,
        argmaxFirst (p :: l) = some w.1 ∧ p :: l = l1 ++ w :: l2 ∧
        (∀ q ∈ l1, q.2 < w.2) ∧ (∀ q ∈ p :: l, q.2 ≤ w.2)) ∧
    (∀ (sl : List ChoiceStats) (m : ℚ),
        (sortByMeanDesc sl).filter (fun st => decide (st.mean = m))
          = sl.filter (fun st => decide (st.mean = m))) ∧
    (∀ (sim : DecisionSimulator) (num_runs : Int) (rng : Rng) (r : SimulationReport),
        sim.run_simulation num_runs rng = .ok r →
        r.rankings = sortByMeanDesc (r.choice_results.map (fun p => p.2))) := by
  refine ⟨?_, sortByMeanDesc_stable_filter, ?_⟩
  · intro p l
    obtain ⟨l1, l2, hsplit, hlt, hle⟩ := pyMaxAux_first_max l p
    exact ⟨pyMaxAux p l, l1, l2, rfl, hsplit, hlt, hle⟩
  · intro sim num_runs rng r h
    simp only [DecisionSimulator.run_simulation] at h
    split at h
    · exact absurd h (by simp)
    · rename_i cr hb
      simp only [Except.ok.injEq] at h
      rw [← h]

/-- Concrete per-choice statistics records exercising a partial tie: two
entries of mean 5 separated by one of mean 3. -/
def statP : ChoiceStats :=
  { choice_id := 1, name := "A", deterministic_score := 0, mean := 5, min := 0,
    max := 0, percentile_5 := 0, percentile_25 := 0, percentile_50 := 0,
    percentile_75 := 0, percentile_95 := 0, win_rate := 0 }

def statQ : ChoiceStats := { statP with choice_id := 2, name := "B", mean := 3 }

def statR : ChoiceStats := { statP with choice_id := 3, name := "C" }

theorem tie_break_supplied_order_witness :
    (∃ w l1 l2, argmaxFirst [((2 : Int), (5 : ℚ)), (1, 5)] = some w.1 ∧
        ([((2 : Int), (5 : ℚ)), (1, 5)] = l1 ++ w :: l2) ∧
        (∀ q ∈ l1, q.2 < w.2) ∧
        (∀ q ∈ [((2 : Int), (5 : ℚ)), (1, 5)], q.2 ≤ w.2)) ∧
    (sortByMeanDesc [statP, statQ, statR]).filter (fun st => decide (st.mean = 5))
      = [statP, statQ, statR].filter (fun st => decide (st.mean = 5)) ∧
    (∃ p, simC5.run_simulation 1 rngZero = .ok p ∧
        p.rankings = sortByMeanDesc (p.choice_results.map (fun q => q.2))) := by
  refine ⟨tie_break_supplied_order.1 (2, 5) [(1, 5)],
    tie_break_supplied_order.2.1 [statP, statQ, statR] 5, ?_⟩
  cases hok : simC5.run_simulation 1 rngZero with
  | error e =>
    norm_num [simC5, DecisionSimulator.init, normalizeWeights, organizeScores, dictOfList,
      dset, dmem, dget?, dgetD, List.find?, List.foldl, DecisionSimulator.run_simulation,
      MAX_SIMULATION_RUNS, simRounds, simulationRound, roundFoldAux, initState,
      DecisionSimulator.simulate_once, sample_score, argmaxFirst, pyMaxAux, buildStats,
      choiceStats, sortAsc, insertAsc, npPercentile, sortByMeanDesc, insertDesc,
      defaultChoice] at hok
    exact absurd hok (by simp)
  | ok p =>
    exact ⟨p, rfl, tie_break_supplied_order.2.2 simC5 1 rngZero p (by rw [hok])⟩

theorem argmaxFirst_mem_keys {d : Dict Int ℚ} {k : Int}
    (h : argmaxFirst d = some k) : k ∈ d.map Prod.fst := by
  cases d with
  | nil => exact absurd h (by simp [argmaxFirst])
  | cons p l =>
    have hk : (pyMaxAux p l).1 = k := by
      simpa [argmaxFirst] using h
    rw [← hk]
    exact List.mem_map.mpr ⟨pyMaxAux p l, pyMaxAux_mem l p, rfl⟩

theorem roundFoldAux_fst_keys (sim : DecisionSimulator) (rng : Rng) :
    ∀ (l : List (Int × Choice)) (acc : Dict Int ℚ × Dict Int (List ℚ) × ℕ) (k : Int),
      dmem (roundFoldAux sim rng l acc).1 k = true →
      dmem acc.1 k = true ∨ k ∈ l.map Prod.fst := by
  intro l
  induction l with
  | nil =>
    intro acc k h
    exact Or.inl h
  | cons p rest ih =>
    intro acc k h
    rw [roundFoldAux, List.foldl_cons] at h
    rcases ih _ k h with h' | h'
    · rcases dmem_dset_imp h' with h'' | h''
      · exact Or.inl h''
      · exact Or.inr (by simp [h''])
    · exact Or.inr (by simp [h'])

theorem roundFoldAux_fst_ne_nil (sim : DecisionSimulator) (rng : Rng) :
    ∀ (l : List (Int × Choice)) (acc : Dict Int ℚ × Dict Int (List ℚ) × ℕ),
      acc.1 ≠ [] ∨ l ≠ [] → (roundFoldAux sim rng l acc).1 ≠ [] := by
  intro l
  induction l with
  | nil =>
    intro acc h
    exact h.resolve_right (by simp)
  | cons p rest ih =>
    intro acc _
    rw [roundFoldAux, List.foldl_cons]
    exact ih _ (Or.inl (dset_ne_nil _ _ _))

theorem simulationRound_win (sim : DecisionSimulator) (rng : Rng) (st : SimState)
    (hne : sim.choices ≠ [])
    (hkeys : st.win_counts.map Prod.fst = sim.choices.map Prod.fst)
    (hnd : (sim.choices.map Prod.fst).Nodup) :
    ((simulationRound sim rng st).win_counts.map Prod.snd).sum
        = (st.win_counts.map Prod.snd).sum + 1 ∧
    (simulationRound sim rng st).win_counts.map Prod.fst
        = sim.choices.map Prod.fst := by
  have htne : (roundFoldAux sim rng sim.choices ([], st.all_results, st.ix)).1 ≠ [] :=
    roundFoldAux_fst_ne_nil sim rng sim.choices _ (Or.inr hne)
  obtain ⟨p, l, hpl⟩ := List.exists_cons_of_ne_nil htne
  have hwinmem : (pyMaxAux p l).1 ∈ sim.choices.map Prod.fst := by
    have hmemfold : dmem (roundFoldAux sim rng sim.choices ([], st.all_results, st.ix)).1
        (pyMaxAux p l).1 = true := by
      rw [hpl]
      exact (dmem_iff_mem_keys _ _).mpr
        (List.mem_map.mpr ⟨pyMaxAux p l, pyMaxAux_mem l p, rfl⟩)
    rcases roundFoldAux_fst_keys sim rng sim.choices _ _ hmemfold with h' | h'
    · exact absurd h' (by simp [dmem, dget?])
    · exact h'
  have hwmem : dmem st.win_counts (pyMaxAux p l).1 = true :=
    (dmem_iff_mem_keys _ _).mpr (hkeys ▸ hwinmem)
  obtain ⟨c, hc⟩ : ∃ c, dget? st.win_counts (pyMaxAux p l).1 = some c := by
    cases ho : dget? st.win_counts (pyMaxAux p l).1 with
    | none => rw [dmem, ho] at hwmem; exact absurd hwmem (by simp)
    | some c => exact ⟨c, rfl⟩
  have hgetD : dgetD st.win_counts (pyMaxAux p l).1 0 = c := by
    rw [dgetD, hc]
    rfl
  have hndw : (st.win_counts.map Prod.fst).Nodup := by rw [hkeys]; exact hnd
  have hround : simulationRound sim rng st
      = { all_results := (roundFoldAux sim rng sim.choices ([], st.all_results, st.ix)).2.1,
          win_counts := dset st.win_counts (pyMaxAux p l).1
            (dgetD st.win_counts (pyMaxAux p l).1 0 + 1),
          ix := (roundFoldAux sim rng sim.choices ([], st.all_results, st.ix)).2.2 } := by
    rw [simulationRound]
    rw [hpl]
    rfl
  constructor
  · rw [hround]
    have := sum_snd_dset_int hndw hc (c + 1)
    simp only [this, hgetD]
    ring
  · rw [hround]
    have := keys_dset_of_dmem (dgetD st.win_counts (pyMaxAux p l).1 0 + 1) hwmem
    simp only [this, hkeys]

theorem simRounds_win_sum (sim : DecisionSimulator) (rng : Rng)
    (hne : sim.choices ≠ []) (hnd : (sim.choices.map Prod.fst).Nodup) :
    ∀ (n : ℕ) (st : SimState),
      st.win_counts.map Prod.fst = sim.choices.map Prod.fst →
      ((simRounds sim rng n st).win_counts.map Prod.snd).sum
        = (st.win_counts.map Prod.snd).sum + (n : ℤ) := by
  intro n
  induction n with
  | zero =>
    intro st _
    simp [simRounds]
  | succ n ih =>
    intro st hk
    obtain ⟨hsum, hkeys⟩ := simulationRound_win sim rng st hne hk hnd
    rw [simRounds, ih (simulationRound sim rng st) hkeys, hsum]
    push_cast
    ring

theorem sum_snd_init_zero (l : List (Int × Choice)) :
    ((l.map (fun p => (p.1, (0 : Int)))).map Prod.snd).sum = 0 := by
  induction l with
  | nil => rfl
  | cons p l ih => simpa using ih

theorem keys_init_win (l : List (Int × Choice)) :
    (l.map (fun p => (p.1, (0 : Int)))).map Prod.fst = l.map Prod.fst := by
  rw [List.map_map]
  rfl

/-- C9 amended: each completed round increments exactly one win counter, so
after `n` rounds over a non-empty choice table (with distinct choice ids)
the counters sum to `n`; `run_simulation` runs `min num_runs 10000` rounds
and reports that count as `num_simulations`. With an empty choice list the
call still completes but all counters are absent and the sum is 0 (see the
counterexample), so the claim holds only for non-empty choice lists and then
for the clamped `num_runs`. -/
theorem win_counters_sum :
    (∀ (sim : DecisionSimulator) (rng : Rng) (n : ℕ),
        (sim.choices.map Prod.fst).Nodup → sim.choices ≠ [] →
        ((simRounds sim rng n (initState sim)).win_counts.map Prod.snd).sum = (n : ℤ)) ∧
    (∀ (sim : DecisionSimulator) (num_runs : Int) (rng : Rng) (r : SimulationReport),
        sim.run_simulation num_runs rng = .ok r →
        r.num_simulations = min num_runs MAX_SIMULATION_RUNS) := by
  constructor
  · intro sim rng n hnd hne
    have hkeys : (initState sim).win_counts.map Prod.fst = sim.choices.map Prod.fst :=
      keys_init_win sim.choices
    rw [simRounds_win_sum sim rng hne hnd n (initState sim) hkeys]
    have : ((initState sim).win_counts.map Prod.snd).sum = 0 :=
      sum_snd_init_zero sim.choices
    rw [this, zero_add]
  · intro sim num_runs rng r h
    simp only [DecisionSimulator.run_simulation] at h
    split at h
    · exact absurd h (by simp)
    · rename_i cr hb
      simp only [Except.ok.injEq] at h
      rw [← h]

theorem win_counters_sum_witness :
    ((simRounds simC5 rngZero 3 (initState simC5)).win_counts.map Prod.snd).sum
        = ((3 : ℕ) : ℤ) ∧
    (∃ p, simC5.run_simulation 1 rngZero = .ok p ∧
        p.num_simulations = min 1 MAX_SIMULATION_RUNS) := by
  constructor
  · refine win_counters_sum.1 simC5 rngZero 3 ?_ ?_
    · norm_num [simC5, DecisionSimulator.init, dictOfList, dset, dmem, dget?,
        List.find?, List.foldl]
    · norm_num [simC5, DecisionSimulator.init, dictOfList, dset, dmem, dget?,
        List.find?, List.foldl]
      simp
  · cases hok : simC5.run_simulation 1 rngZero with
    | error e =>
      norm_num [simC5, DecisionSimulator.init, normalizeWeights, organizeScores,
        dictOfList, dset, dmem, dget?, dgetD, List.find?, List.foldl,
        DecisionSimulator.run_simulation, MAX_SIMULATION_RUNS, simRounds,
        simulationRound, roundFoldAux, initState, DecisionSimulator.simulate_once,
        sample_score, argmaxFirst, pyMaxAux, buildStats, choiceStats, sortAsc,
        insertAsc, npPercentile, sortByMeanDesc, insertDesc, defaultChoice] at hok
      exact absurd hok (by simp)
    | ok p =>
      exact ⟨p, rfl, win_counters_sum.2 simC5 1 rngZero p (by rw [hok])⟩

/-- C9 counterexample: with an empty choice list, `run_simulation 1`
completes and reports `num_simulations = 1`, yet the win counters (an empty
table) sum to 0, not to `num_runs`. -/
theorem run_win_sum_empty_choices_cex :
    (DecisionSimulator.init [] [] []).run_simulation 1 rngZero
      = .ok { num_simulations := 1, choice_results := [], rankings := [],
              win_rates := [] } ∧
    (((simRounds (DecisionSimulator.init [] [] []) rngZero 1
        (initState (DecisionSimulator.init [] [] []))).win_counts).map Prod.snd).sum
      = 0 ∧
    (0 : ℤ) ≠ 1 := by
  refine ⟨?_, ?_, by norm_num⟩ <;>
  norm_num [DecisionSimulator.init, normalizeWeights, organizeScores, dictOfList,
    dset, dmem, dget?, dgetD, List.find?, List.foldl, DecisionSimulator.run_simulation,
    MAX_SIMULATION_RUNS, simRounds, simulationRound, roundFoldAux, initState,
    DecisionSimulator.simulate_once, sample_score, argmaxFirst, pyMaxAux, buildStats,
    choiceStats, sortAsc, insertAsc, npPercentile, sortByMeanDesc, insertDesc,
    defaultChoice]

theorem simulationRound_empty (sim : DecisionSimulator) (rng : Rng) (st : SimState)
    (hch : sim.choices = []) : simulationRound sim rng st = st := by
  simp only [simulationRound, roundFoldAux, hch, List.foldl_nil, argmaxFirst]

theorem simRounds_empty (sim : DecisionSimulator) (rng : Rng)
    (hch : sim.choices = []) : ∀ (n : ℕ) (st : SimState), simRounds sim rng n st = st := by
  intro n
  induction n with
  | zero => intro st; rfl
  | succ n ih =>
    intro st
    rw [simRounds, simulationRound_empty sim rng st hch]
    exact ih st

theorem dictOfList_ne_nil {κ α : Type} [DecidableEq κ] {pairs : List (κ × α)}
    (h : pairs ≠ []) : dictOfList pairs ≠ [] := by
  rw [dictOfList]
  exact foldl_dset_ne_nil (fun p : κ × α => p.1) (fun _ p => p.2) pairs [] (Or.inr h)

/-- C1 amended: `run_simulation` performs no input validation. With an empty
choice list it completes and returns a report (over no choices) for any
`num_runs`; with a non-empty choice list and `num_runs ≤ 0` it fails, but
with the empty-array reduction error (`np.min` raising ValueError while
aggregating an empty sample series), not with a ValidationError — no
ValidationError exists in the code. -/
theorem run_simulation_no_validation :
    (∀ (factors : List Factor) (scores : List Score) (num_runs : Int) (rng : Rng),
        ∃ r, (DecisionSimulator.init [] factors scores).run_simulation num_runs rng
          = .ok r) ∧
    (∀ (choices : List Choice) (factors : List Factor) (scores : List Score)
        (num_runs : Int) (rng : Rng), choices ≠ [] → num_runs ≤ 0 →
        (DecisionSimulator.init choices factors scores).run_simulation num_runs rng
          = .error .valueError) := by
  constructor
  · intro factors scores num_runs rng
    have hch : (DecisionSimulator.init [] factors scores).choices = [] := rfl
    simp only [DecisionSimulator.run_simulation,
      simRounds_empty (DecisionSimulator.init [] factors scores) rng hch]
    simp only [initState, hch, List.map_nil, buildStats]
    exact ⟨_, rfl⟩
  · intro choices factors scores num_runs rng hne hnum
    have hchne : (DecisionSimulator.init choices factors scores).choices ≠ [] := by
      apply dictOfList_ne_nil
      simp [hne]
    obtain ⟨q, qs, hq⟩ := List.exists_cons_of_ne_nil hchne
    have htn : (min num_runs MAX_SIMULATION_RUNS).toNat = 0 :=
      Int.toNat_of_nonpos (le_trans (min_le_left _ _) hnum)
    simp only [DecisionSimulator.run_simulation, htn, simRounds, initState, hq,
      List.map_cons, buildStats, choiceStats]

theorem run_simulation_no_validation_witness :
    (∃ r, (DecisionSimulator.init [] [] []).run_simulation 3 rngZero = .ok r) ∧
    (DecisionSimulator.init [{ id := 1, name := "A" }] [] []).run_simulation (-1) rngZero
      = .error .valueError :=
  ⟨run_simulation_no_validation.1 [] [] 3 rngZero,
   run_simulation_no_validation.2 [{ id := 1, name := "A" }] [] [] (-1) rngZero
     (by simp) (by norm_num)⟩

/-- C1 counterexample: with an empty choice list (an input the claim says
must fail with ValidationError), `run_simulation 5` succeeds and returns a
report with no choices. -/
theorem run_simulation_empty_choices_ok_cex :
    (DecisionSimulator.init [] [] []).run_simulation 5 rngZero
      = .ok { num_simulations := 5, choice_results := [], rankings := [],
              win_rates := [] } := by
  norm_num [DecisionSimulator.init, normalizeWeights, organizeScores, dictOfList,
    dset, dmem, dget?, dgetD, List.find?, List.foldl, DecisionSimulator.run_simulation,
    MAX_SIMULATION_RUNS, simRounds, simulationRound, roundFoldAux, initState,
    DecisionSimulator.simulate_once, sample_score, argmaxFirst, pyMaxAux, buildStats,
    choiceStats, sortAsc, insertAsc, npPercentile, sortByMeanDesc, insertDesc,
    defaultChoice]

end Mneme
